import Mathlib

/-!
# Verification of the NoteTaker icon generator

Shallow embedding of `scripts/generate_icon.py` (shield path builder,
gradient/mask compositor, microphone glyph geometry, and the size exporter),
together with proofs of the specified properties.

Coordinates are modelled over `ℚ`.  The Python script computes with IEEE
doubles via `math.cos` / `math.sin` / `math.pi`; those library functions are
modelled as an abstract `TrigOracle`, and each theorem assumes only the
accuracy facts about the oracle that it needs, so the statements hold for any
faithful floating-point realisation of trigonometry.
-/

namespace NoteTaker

/-- Abstract model of `cos`, `sin` and `pi` from the `math` module
(the only foreign numeric dependencies of the script). -/
structure TrigOracle where
  cos : ℚ → ℚ
  sin : ℚ → ℚ
  pi : ℚ

/-- Python `int(x)` on a float: truncation toward zero. -/
def pyint (q : ℚ) : ℤ :=
  if 0 ≤ q then ⌊q⌋ else -⌊-q⌋

/-- The constant `steps = 40` in `make_shield_path`. -/
def shieldSteps : ℕ := 40

/-- The radius `top_r = w * 0.08` of the two small top corners. -/
def top_r (w : ℚ) : ℚ := w * (8 / 100)

/-- Quadratic Bézier point, exactly the formula in `make_shield_path`:
`B(t) = (1-t)^2 p0 + 2 (1-t) t p1 + t^2 p2`, componentwise. -/
def bezierPoint (p0 p1 p2 : ℚ × ℚ) (t : ℚ) : ℚ × ℚ :=
  ((1 - t) ^ 2 * p0.1 + 2 * (1 - t) * t * p1.1 + t ^ 2 * p2.1,
   (1 - t) ^ 2 * p0.2 + 2 * (1 - t) * t * p1.2 + t ^ 2 * p2.2)

/-- Point `i` of the top-left rounded corner:
`angle = pi + (pi/2) * (i / (steps // 4))`, centre `(cx - w/2 + top_r, top_y + top_r)`. -/
def cornerPtTL (T : TrigOracle) (cx cy w h : ℚ) (i : ℕ) : ℚ × ℚ :=
  ((cx - w / 2 + top_r w) +
     top_r w * T.cos (T.pi + (T.pi / 2) * ((i : ℚ) / ((shieldSteps / 4 : ℕ) : ℚ))),
   ((cy - h / 2) + top_r w) +
     top_r w * T.sin (T.pi + (T.pi / 2) * ((i : ℚ) / ((shieldSteps / 4 : ℕ) : ℚ))))

/-- Point `i` of the top-right rounded corner:
`angle = 3*pi/2 + (pi/2) * (i / (steps // 4))`, centre `(cx + w/2 - top_r, top_y + top_r)`. -/
def cornerPtTR (T : TrigOracle) (cx cy w h : ℚ) (i : ℕ) : ℚ × ℚ :=
  ((cx + w / 2 - top_r w) +
     top_r w * T.cos (3 * T.pi / 2 + (T.pi / 2) * ((i : ℚ) / ((shieldSteps / 4 : ℕ) : ℚ))),
   ((cy - h / 2) + top_r w) +
     top_r w * T.sin (3 * T.pi / 2 + (T.pi / 2) * ((i : ℚ) / ((shieldSteps / 4 : ℕ) : ℚ))))

/-- Where the straight sides stop: `straight_end = top_y + h * 0.50`. -/
def straight_end (cy h : ℚ) : ℚ := (cy - h / 2) + h * (50 / 100)

/-- Sample `i` (`t = i / steps`) of the right Bézier curve
`(cx + w/2, straight_end) → (cx, bot_y)` with control
`(cx + w*0.25, straight_end + h*0.35)`. -/
def curvePtR (cx cy w h : ℚ) (i : ℕ) : ℚ × ℚ :=
  bezierPoint (cx + w / 2, straight_end cy h)
    (cx + w * (25 / 100), straight_end cy h + h * (35 / 100))
    (cx, cy + h / 2) ((i : ℚ) / (shieldSteps : ℚ))

/-- Sample `i` (`t = i / steps`) of the left Bézier curve
`(cx, bot_y) → (cx - w/2, straight_end)` with control
`(cx - w*0.25, straight_end + h*0.35)`. -/
def curvePtL (cx cy w h : ℚ) (i : ℕ) : ℚ × ℚ :=
  bezierPoint (cx, cy + h / 2)
    (cx - w * (25 / 100), straight_end cy h + h * (35 / 100))
    (cx - w / 2, straight_end cy h) ((i : ℚ) / (shieldSteps : ℚ))

/-- The function `make_shield_path(cx, cy, w, h)`: the ordered point list built by the
script — top-left corner arc (`i = 0 .. steps//4`), top-right corner arc,
the right-side point, the two Bézier curves sampled at `i = 1 .. steps`,
and the final left-side point. -/
def make_shield_path (T : TrigOracle) (cx cy w h : ℚ) : List (ℚ × ℚ) :=
  (List.range (shieldSteps / 4 + 1)).map (cornerPtTL T cx cy w h)
    ++ (List.range (shieldSteps / 4 + 1)).map (cornerPtTR T cx cy w h)
    ++ [(cx + w / 2, straight_end cy h)]
    ++ (List.range' 1 shieldSteps).map (curvePtR cx cy w h)
    ++ (List.range' 1 shieldSteps).map (curvePtL cx cy w h)
    ++ [(cx - w / 2, (cy - h / 2) + top_r w)]

/-- Membership in the axis-aligned bounding box declared to the path builder. -/
def inBBox (cx cy w h : ℚ) (p : ℚ × ℚ) : Prop :=
  cx - w / 2 ≤ p.1 ∧ p.1 ≤ cx + w / 2 ∧ cy - h / 2 ≤ p.2 ∧ p.2 ≤ cy + h / 2

/-- Concrete trigonometric oracle used by the witnesses: `pi` is modelled by
`4`, and `cos`/`sin` take their exact unit-circle values at the three angles
at which the closure/shape arguments evaluate them (`π`, `3π/2`, `2π`, i.e.
`4`, `6`, `8`). -/
def wcos (a : ℚ) : ℚ :=
  if a = 4 then -1 else if a = 6 then 0 else 1

/-- The `sin` companion of `wcos`. -/
def wsin (a : ℚ) : ℚ :=
  if a = 6 then -1 else 0

/-- Witness trig oracle. -/
def witTrig : TrigOracle :=
  ⟨wcos, wsin, 4⟩

/-- The facts about the trig oracle used for the bounding-box property:
`pi` is nonnegative and, on the third and fourth quadrants `[π, 2π]` (the only
angles the path builder samples), `cos` stays in `[-1, 1]` and `sin` in
`[-1, 0]` — as real trigonometry does. -/
def TrigBounds (T : TrigOracle) : Prop :=
  0 ≤ T.pi ∧ ∀ a : ℚ, T.pi ≤ a → a ≤ 2 * T.pi →
    (|T.cos a| ≤ 1 ∧ -1 ≤ T.sin a ∧ T.sin a ≤ 0)

/-- C9 exactly as claimed: for EVERY positive `w` and `h` all path points lie
in the declared bounding box.  Refuted below: the top-corner radius
`top_r = 0.08 * w` can exceed `h`. -/
def ClaimC9 : Prop :=
  ∀ T : TrigOracle, TrigBounds T →
    ∀ cx cy w h : ℚ, 0 < w → 0 < h →
      ∀ p ∈ make_shield_path T cx cy w h, inBBox cx cy w h p

/-- Edge list of a polygon: each vertex paired with its cyclic successor. -/
def polyEdges (poly : List (ℚ × ℚ)) : List ((ℚ × ℚ) × (ℚ × ℚ)) :=
  poly.zip (poly.rotate 1)

/-- Whether the horizontal ray from `p` to the right crosses edge `e`. -/
def rayCrosses (p : ℚ × ℚ) (e : (ℚ × ℚ) × (ℚ × ℚ)) : Bool :=
  (decide (e.1.2 ≤ p.2) != decide (e.2.2 ≤ p.2)) &&
    decide (p.1 < e.1.1 + (p.2 - e.1.2) * (e.2.1 - e.1.1) / (e.2.2 - e.1.2))

/-- Modelled from the spec: the rasterizer behind `ImageDraw.polygon` is PIL
library code, not part of this repository; per the words of the spec — "mask pixel
is opaque if and only if it lies inside the shield polygon" — geometric
membership is the even–odd (ray-crossing) point-in-polygon test. -/
def insidePoly (poly : List (ℚ × ℚ)) (p : ℚ × ℚ) : Bool :=
  (polyEdges poly).countP (rayCrosses p) % 2 == 1

/-- The binary mask the script draws with `mask_draw.polygon(shield_points,
fill=255)` on an `L`-mode image initialised to 0. -/
def maskPixel (poly : List (ℚ × ℚ)) (p : ℚ × ℚ) : ℕ :=
  if insidePoly poly p then 255 else 0

/-- PIL `Image.composite(a, b, mask)` on 8-bit channels: per-pixel blend
`(a*m + b*(255-m)) / 255`.  For the binary mask above this selects `a`
where the mask is 255 and `b` where it is 0. -/
def compositeL (a b m : (ℚ × ℚ) → ℕ) (p : ℚ × ℚ) : ℕ :=
  (a p * m p + b p * (255 - m p)) / 255

/-- The alpha channel the script installs on the gradient layer:
`gradient_img.putalpha(Image.composite(gradient_img.split()[3],
Image.new("L", ..., 0), mask_img))` — the own alpha `gA` of the gradient masked
to the shield silhouette, zero elsewhere. -/
def maskedGradientAlpha (T : TrigOracle) (cx cy w h : ℚ)
    (gA : (ℚ × ℚ) → ℕ) (p : ℚ × ℚ) : ℕ :=
  compositeL gA (fun _ => 0) (maskPixel (make_shield_path T cx cy w h)) p

/-- A horizontal grille line segment drawn with `draw.line`. -/
structure Seg where
  x1 : ℚ
  y1 : ℚ
  x2 : ℚ
  y2 : ℚ

/-- All geometry computed by `draw_microphone`: the capsule, the grille
lines, the cradle arc, the stand and the base, with the integer stroke
parameters the script passes to PIL. -/
structure MicGlyph where
  cap_w : ℚ
  cap_h : ℚ
  cap_r : ℚ
  cap_top : ℚ
  cap_bot : ℚ
  capsule_radius : ℤ
  grille_lines : List Seg
  grille_width : ℤ
  arc_w : ℚ
  arc_h_val : ℚ
  arc_y : ℚ
  arc_thickness : ℤ
  stand_w : ℤ
  stand_top : ℚ
  stand_h : ℚ
  base_w : ℚ
  base_h : ℤ
  base_top : ℚ

/-- The constant `num_lines = 5` grille lines. -/
def num_lines : ℕ := 5

/-- The `i`-th grille line: `t = i / (num_lines - 1)`,
`ly = grille_top + (grille_bot - grille_top) * t`, drawn from
`cx - cap_w/2 + indent` to `cx + cap_w/2 - indent` (`indent = cap_w * 0.22`). -/
def grilleLine (cx cy scale : ℚ) (i : ℕ) : Seg :=
  { x1 := cx - (100 * scale) / 2 + (100 * scale) * (22 / 100)
    y1 := ((cy - (170 * scale) * (45 / 100)) + (170 * scale) * (12 / 100)) +
      (((cy - (170 * scale) * (45 / 100)) + (170 * scale) * (52 / 100)) -
          ((cy - (170 * scale) * (45 / 100)) + (170 * scale) * (12 / 100))) *
        ((i : ℚ) / ((num_lines : ℚ) - 1))
    x2 := cx + (100 * scale) / 2 - (100 * scale) * (22 / 100)
    y2 := ((cy - (170 * scale) * (45 / 100)) + (170 * scale) * (12 / 100)) +
      (((cy - (170 * scale) * (45 / 100)) + (170 * scale) * (52 / 100)) -
          ((cy - (170 * scale) * (45 / 100)) + (170 * scale) * (12 / 100))) *
        ((i : ℚ) / ((num_lines : ℚ) - 1)) }

/-- The function `draw_microphone(draw, cx, cy, scale)`: the glyph geometry, exactly the
arithmetic of the script (`int` is truncation, `max` the Python builtin). -/
def draw_microphone (cx cy scale : ℚ) : MicGlyph :=
  let cap_w := 100 * scale
  let cap_h := 170 * scale
  let cap_r := cap_w / 2
  let cap_top := cy - cap_h * (45 / 100)
  let cap_bot := cap_top + cap_h
  let arc_w := cap_w * (17 / 10)
  let arc_h_val := cap_h * (45 / 100)
  let arc_y := cap_bot - cap_h * (22 / 100)
  let stand_w := max 4 (pyint (12 * scale))
  let stand_top := arc_y + arc_h_val
  let stand_h := 55 * scale
  let base_w := 90 * scale
  let base_h := max 4 (pyint (12 * scale))
  { cap_w := cap_w
    cap_h := cap_h
    cap_r := cap_r
    cap_top := cap_top
    cap_bot := cap_bot
    capsule_radius := pyint cap_r
    grille_lines := (List.range num_lines).map (grilleLine cx cy scale)
    grille_width := max 2 (pyint (3 * scale))
    arc_w := arc_w
    arc_h_val := arc_h_val
    arc_y := arc_y
    arc_thickness := max 4 (pyint (12 * scale))
    stand_w := stand_w
    stand_top := stand_top
    stand_h := stand_h
    base_w := base_w
    base_h := base_h
    base_top := stand_top + stand_h - (base_h : ℚ) / 3 }

/-- C5 exactly as claimed, including "every glyph dimension is proportional
to the single scale factor": the ratio facts, the grille count, and a
proportionality constant for each dimension — including the clamped integer
stroke dimensions `stand_w`, `arc_thickness`, `base_h`.  Refuted below. -/
def ClaimC5 : Prop :=
  ∀ cx cy : ℚ,
    (∀ s : ℚ, 0 < s →
      (draw_microphone cx cy s).cap_h = (17 / 10) * (draw_microphone cx cy s).cap_w ∧
      (draw_microphone cx cy s).arc_w = (17 / 10) * (draw_microphone cx cy s).cap_w ∧
      (draw_microphone cx cy s).grille_lines.length = 5) ∧
    (∃ k1 k2 k3 k4 k5 k6 k7 k8 : ℚ, ∀ s : ℚ, 0 < s →
      (draw_microphone cx cy s).cap_w = k1 * s ∧
      (draw_microphone cx cy s).cap_h = k2 * s ∧
      (draw_microphone cx cy s).arc_w = k3 * s ∧
      (draw_microphone cx cy s).stand_h = k4 * s ∧
      (draw_microphone cx cy s).base_w = k5 * s ∧
      ((draw_microphone cx cy s).stand_w : ℚ) = k6 * s ∧
      ((draw_microphone cx cy s).arc_thickness : ℚ) = k7 * s ∧
      ((draw_microphone cx cy s).base_h : ℚ) = k8 * s)

/-- The master canvas size `SIZE = 1024`. -/
def SIZE : ℕ := 1024

/-- Padding around the shield: `PAD = 80`. -/
def PAD : ℕ := 80

/-- The width `shield_w = SIZE - PAD * 2` in `create_icon`. -/
def shield_w : ℚ := (SIZE : ℚ) - (PAD : ℚ) * 2

/-- The height `shield_h = shield_w * 1.05`. -/
def shield_h : ℚ := shield_w * (105 / 100)

/-- The centre `cx = SIZE / 2`. -/
def icon_cx : ℚ := (SIZE : ℚ) / 2

/-- The centre `cy = SIZE / 2 + 10`. -/
def icon_cy : ℚ := (SIZE : ℚ) / 2 + 10

/-- The top edge `shield_top = cy - shield_h / 2`. -/
def shield_top : ℚ := icon_cy - shield_h / 2

/-- The bottom edge `shield_bot = cy + shield_h / 2`. -/
def shield_bot : ℚ := icon_cy + shield_h / 2

/-- One horizontal line drawn on the gradient layer:
`draw.line([(x0, y), (x1, y)], fill=(red, green, blue, alpha))`. -/
structure GradLine where
  x0 : ℚ
  y : ℚ
  x1 : ℚ
  red : ℕ
  green : ℕ
  blue : ℕ
  alpha : ℤ

/-- Number of rows of the top highlight: `range(int(shield_h * 0.45))`. -/
def topRowCount : ℕ := (pyint (shield_h * (45 / 100))).toNat

/-- Row `i` of the top highlight: `t = 1 - i / (shield_h * 0.45)`,
`alpha = int(45 * t)`, `y = shield_top + i`, white, full canvas width. -/
def topRow (i : ℕ) : GradLine :=
  { x0 := 0
    y := shield_top + (i : ℚ)
    x1 := (SIZE : ℚ)
    red := 255
    green := 255
    blue := 255
    alpha := pyint (45 * (1 - (i : ℚ) / (shield_h * (45 / 100)))) }

/-- The list of top-highlight lines drawn by `create_icon`. -/
def topHighlight : List GradLine := (List.range topRowCount).map topRow

/-- Number of rows of the bottom darkening: `range(int(shield_h * 0.35))`. -/
def botRowCount : ℕ := (pyint (shield_h * (35 / 100))).toNat

/-- Row `i` of the bottom darkening: `t = i / (shield_h * 0.35)`,
`alpha = int(35 * t)`, `y = shield_bot - int(shield_h * 0.35) + i`, black,
full canvas width. -/
def botRow (i : ℕ) : GradLine :=
  { x0 := 0
    y := shield_bot - ((pyint (shield_h * (35 / 100)) : ℤ) : ℚ) + (i : ℚ)
    x1 := (SIZE : ℚ)
    red := 0
    green := 0
    blue := 0
    alpha := pyint (35 * ((i : ℚ) / (shield_h * (35 / 100)))) }

/-- The list of bottom-darkening lines drawn by `create_icon`. -/
def bottomDark : List GradLine := (List.range botRowCount).map botRow

/-- The fixed `(logical size, scale)` list of `generate_sizes`. -/
def sizesList : List (ℕ × ℕ) :=
  [(16, 1), (16, 2), (32, 1), (32, 2), (128, 1), (128, 2),
   (256, 1), (256, 2), (512, 1), (512, 2)]

/-- The filename convention: `icon_` then `size` `x` `size`, an `@2x` suffix exactly when `scale == 2`, then `.png`. -/
def iconFilename (size scale : ℕ) : String :=
  "icon_" ++ toString size ++ "x" ++ toString size ++
    (if scale == 2 then "@2x" else "") ++ ".png"

/-- One entry of the `images` list of the manifest. -/
structure ImageEntry where
  filename : String
  idiom : String
  scale : String
  size : String
deriving DecidableEq

/-- The manifest (`Contents.json`): the `images` list plus the fixed
`info: \x7bauthor: "xcode", version: 1\x7d` metadata. -/
structure Contents where
  images : List ImageEntry
  author : String
  version : ℕ
deriving DecidableEq

/-- An image file the exporter has written: its path and pixel dimensions
(the resize target passed to `source_img.resize`). -/
structure WrittenFile where
  path : String
  pixel_w : ℕ
  pixel_h : ℕ
deriving DecidableEq

/-- Outcome of a `generate_sizes` run: either every write succeeded and the
manifest was serialized, or an I/O error escaped at some path, with the files
successfully written before the failure. -/
inductive ExportResult where
  | ok (files : List WrittenFile) (contents : Contents)
  | error (files : List WrittenFile) (failedPath : String)
deriving DecidableEq

/-- The manifest entry appended for a `(size, scale)` pair:
`idiom "mac"`, `scale f"{scale}x"`, `size f"{size}x{size}"`. -/
def mkEntry (size scale : ℕ) : ImageEntry :=
  { filename := iconFilename size scale
    idiom := "mac"
    scale := toString scale ++ "x"
    size := toString size ++ "x" ++ toString size }

/-- The file written for a `(size, scale)` pair: resized to
`pixel_size = size * scale` square. -/
def mkWritten (dir : String) (size scale : ℕ) : WrittenFile :=
  { path := dir ++ "/" ++ iconFilename size scale
    pixel_w := size * scale
    pixel_h := size * scale }

/-- The `for size, scale in sizes` loop of `generate_sizes`, followed by the
`Contents.json` write.  `ok` is the filesystem oracle: whether a write to the
given path succeeds.  The script installs no exception handler, so the first
failing write aborts the run with the error propagating to the caller. -/
def exportGo (ok : String → Bool) (dir : String) :
    List (ℕ × ℕ) → List WrittenFile → List ImageEntry → ExportResult
  | [], files, entries =>
      if ok (dir ++ "/Contents.json") then
        .ok files { images := entries, author := "xcode", version := 1 }
      else .error files (dir ++ "/Contents.json")
  | (size, scale) :: rest, files, entries =>
      if ok (dir ++ "/" ++ iconFilename size scale) then
        exportGo ok dir rest (files ++ [mkWritten dir size scale])
          (entries ++ [mkEntry size scale])
      else .error files (dir ++ "/" ++ iconFilename size scale)

/-- The exporter `generate_sizes(source_img, output_dir)` as a function of the filesystem
oracle. -/
def generate_sizes (ok : String → Bool) (dir : String) : ExportResult :=
  exportGo ok dir sizesList [] []

/-- JSON rendering of a manifest entry, modelling the deterministic,
insertion-ordered output of `json.dump`. -/
def serializeEntry (e : ImageEntry) : String :=
  "\x7b\"filename\": \"" ++ e.filename ++ "\", \"idiom\": \"" ++ e.idiom ++
    "\", \"scale\": \"" ++ e.scale ++ "\", \"size\": \"" ++ e.size ++ "\"\x7d"

/-- JSON rendering of the whole manifest. -/
def serializeContents (c : Contents) : String :=
  "\x7b\"images\": [" ++ String.intercalate ", " (c.images.map serializeEntry) ++
    "], \"info\": \x7b\"author\": \"" ++ c.author ++ "\", \"version\": " ++
    toString c.version ++ "\x7d\x7d"

/-- The manifest `generate_sizes` builds when every write succeeds. -/
def manifestContents : Contents :=
  { images := sizesList.map (fun sc => mkEntry sc.1 sc.2)
    author := "xcode"
    version := 1 }

/-- One full run of the generator, as a function of its only inputs: the
rendering backend (the master image `create_icon()` produced and the PIL
`resize`) and the output directory.  Yields the master image, the ten
resized images with their paths, and the serialized manifest bytes. -/
def runOnce {Img : Type} (master : Img) (resize : Img → ℕ → Img)
    (dir : String) : Img × List (String × Img) × String :=
  (master,
   sizesList.map (fun sc => (dir ++ "/" ++ iconFilename sc.1 sc.2,
     resize master (sc.1 * sc.2))),
   serializeContents manifestContents)

/-- Filesystem oracle for the C8 witness: every write succeeds except
`d/icon_32x32.png`. -/
def failOracle : String → Bool :=
  fun s => !(s == "d/icon_32x32.png")

section ShieldLemmas

lemma shield_length_aux (T : TrigOracle) (cx cy w h : ℚ) :
    (make_shield_path T cx cy w h).length = 104 := by
  simp [make_shield_path, shieldSteps]

lemma shield_head_aux (T : TrigOracle) (cx cy w h : ℚ) :
    (make_shield_path T cx cy w h).head? = some (cornerPtTL T cx cy w h 0) := rfl

lemma shield_last_aux (T : TrigOracle) (cx cy w h : ℚ) :
    (make_shield_path T cx cy w h).getLast? =
      some (cx - w / 2, (cy - h / 2) + top_r w) := by
  unfold make_shield_path
  rw [List.getLast?_concat]

lemma shield_ne_nil_aux (T : TrigOracle) (cx cy w h : ℚ) :
    make_shield_path T cx cy w h ≠ [] := by
  intro hnil
  have h104 := shield_length_aux T cx cy w h
  rw [hnil] at h104
  simp at h104

lemma witTrig_unit : ∀ a : ℚ, witTrig.cos a ^ 2 + witTrig.sin a ^ 2 = 1 := by
  intro a
  show wcos a ^ 2 + wsin a ^ 2 = 1
  unfold wcos wsin
  split_ifs with h1 h2 <;> try norm_num
  subst h1
  norm_num at h2

lemma witTrig_bounds : TrigBounds witTrig := by
  refine ⟨by norm_num [witTrig], ?_⟩
  intro a _ _
  show |wcos a| ≤ 1 ∧ -1 ≤ wsin a ∧ wsin a ≤ 0
  unfold wcos wsin
  split_ifs <;> norm_num

lemma curvePtR_closed (cx cy w h : ℚ) (i : ℕ) :
    curvePtR cx cy w h i =
      (cx + w * (1 - (i : ℚ) / 40) / 2,
       cy + h * ((7 / 10) * ((i : ℚ) / 40) - (2 / 10) * ((i : ℚ) / 40) ^ 2)) := by
  have hd : ((shieldSteps : ℕ) : ℚ) = 40 := by norm_num [shieldSteps]
  unfold curvePtR bezierPoint straight_end
  rw [hd, Prod.mk.injEq]
  constructor <;> ring

lemma curvePtL_closed (cx cy w h : ℚ) (i : ℕ) :
    curvePtL cx cy w h i =
      (cx - w * ((i : ℚ) / 40) / 2,
       cy + h * ((7 / 10) * (1 - (i : ℚ) / 40) - (2 / 10) * (1 - (i : ℚ) / 40) ^ 2)) := by
  have hd : ((shieldSteps : ℕ) : ℚ) = 40 := by norm_num [shieldSteps]
  unfold curvePtL bezierPoint straight_end
  rw [hd, Prod.mk.injEq]
  constructor <;> ring

lemma cornerTL_in_bbox (T : TrigOracle) (hT : TrigBounds T) (cx cy w h : ℚ)
    (hw : 0 < w) (hrh : top_r w ≤ h) (i : ℕ) (hi : i ≤ 10) :
    inBBox cx cy w h (cornerPtTL T cx cy w h i) := by
  obtain ⟨hpi, htrig⟩ := hT
  have hd : ((shieldSteps / 4 : ℕ) : ℚ) = 10 := by norm_num [shieldSteps]
  have hr0 : 0 ≤ top_r w := by unfold top_r; nlinarith
  have hrw : top_r w * 2 ≤ w := by unfold top_r; nlinarith
  simp only [inBBox, cornerPtTL]
  have hfrac : 0 ≤ (i : ℚ) / ((shieldSteps / 4 : ℕ) : ℚ) ∧
      (i : ℚ) / ((shieldSteps / 4 : ℕ) : ℚ) ≤ 1 := by
    rw [hd]
    constructor
    · positivity
    · rw [div_le_one (by norm_num)]
      exact_mod_cast hi
  have hhalf : (0:ℚ) ≤ T.pi / 2 := by linarith
  have hm1 : 0 ≤ T.pi / 2 * ((i : ℚ) / ((shieldSteps / 4 : ℕ) : ℚ)) :=
    mul_nonneg hhalf hfrac.1
  have hm2 : T.pi / 2 * ((i : ℚ) / ((shieldSteps / 4 : ℕ) : ℚ)) ≤ T.pi / 2 := by
    have := mul_le_mul_of_nonneg_left hfrac.2 hhalf
    simpa using this
  obtain ⟨hc, hs1, hs2⟩ :=
    htrig (T.pi + T.pi / 2 * ((i : ℚ) / ((shieldSteps / 4 : ℕ) : ℚ)))
      (by linarith) (by linarith)
  rw [abs_le] at hc
  have p1 : 0 ≤ top_r w * (1 + T.cos (T.pi + T.pi / 2 * ((i : ℚ) / ((shieldSteps / 4 : ℕ) : ℚ)))) :=
    mul_nonneg hr0 (by linarith [hc.1])
  have p2 : 0 ≤ top_r w * (1 - T.cos (T.pi + T.pi / 2 * ((i : ℚ) / ((shieldSteps / 4 : ℕ) : ℚ)))) :=
    mul_nonneg hr0 (by linarith [hc.2])
  have p3 : 0 ≤ top_r w * (1 + T.sin (T.pi + T.pi / 2 * ((i : ℚ) / ((shieldSteps / 4 : ℕ) : ℚ)))) :=
    mul_nonneg hr0 (by linarith [hs1])
  have p4 : 0 ≤ top_r w * (-T.sin (T.pi + T.pi / 2 * ((i : ℚ) / ((shieldSteps / 4 : ℕ) : ℚ)))) :=
    mul_nonneg hr0 (by linarith [hs2])
  refine ⟨by nlinarith, by nlinarith, by nlinarith, by nlinarith⟩

lemma cornerTR_in_bbox (T : TrigOracle) (hT : TrigBounds T) (cx cy w h : ℚ)
    (hw : 0 < w) (hrh : top_r w ≤ h) (i : ℕ) (hi : i ≤ 10) :
    inBBox cx cy w h (cornerPtTR T cx cy w h i) := by
  obtain ⟨hpi, htrig⟩ := hT
  have hd : ((shieldSteps / 4 : ℕ) : ℚ) = 10 := by norm_num [shieldSteps]
  have hr0 : 0 ≤ top_r w := by unfold top_r; nlinarith
  have hrw : top_r w * 2 ≤ w := by unfold top_r; nlinarith
  simp only [inBBox, cornerPtTR]
  have hfrac : 0 ≤ (i : ℚ) / ((shieldSteps / 4 : ℕ) : ℚ) ∧
      (i : ℚ) / ((shieldSteps / 4 : ℕ) : ℚ) ≤ 1 := by
    rw [hd]
    constructor
    · positivity
    · rw [div_le_one (by norm_num)]
      exact_mod_cast hi
  have hhalf : (0:ℚ) ≤ T.pi / 2 := by linarith
  have hm1 : 0 ≤ T.pi / 2 * ((i : ℚ) / ((shieldSteps / 4 : ℕ) : ℚ)) :=
    mul_nonneg hhalf hfrac.1
  have hm2 : T.pi / 2 * ((i : ℚ) / ((shieldSteps / 4 : ℕ) : ℚ)) ≤ T.pi / 2 := by
    have := mul_le_mul_of_nonneg_left hfrac.2 hhalf
    simpa using this
  obtain ⟨hc, hs1, hs2⟩ :=
    htrig (3 * T.pi / 2 + T.pi / 2 * ((i : ℚ) / ((shieldSteps / 4 : ℕ) : ℚ)))
      (by linarith) (by linarith)
  rw [abs_le] at hc
  have p1 : 0 ≤ top_r w * (1 + T.cos (3 * T.pi / 2 + T.pi / 2 * ((i : ℚ) / ((shieldSteps / 4 : ℕ) : ℚ)))) :=
    mul_nonneg hr0 (by linarith [hc.1])
  have p2 : 0 ≤ top_r w * (1 - T.cos (3 * T.pi / 2 + T.pi / 2 * ((i : ℚ) / ((shieldSteps / 4 : ℕ) : ℚ)))) :=
    mul_nonneg hr0 (by linarith [hc.2])
  have p3 : 0 ≤ top_r w * (1 + T.sin (3 * T.pi / 2 + T.pi / 2 * ((i : ℚ) / ((shieldSteps / 4 : ℕ) : ℚ)))) :=
    mul_nonneg hr0 (by linarith [hs1])
  have p4 : 0 ≤ top_r w * (-T.sin (3 * T.pi / 2 + T.pi / 2 * ((i : ℚ) / ((shieldSteps / 4 : ℕ) : ℚ)))) :=
    mul_nonneg hr0 (by linarith [hs2])
  refine ⟨by nlinarith, by nlinarith, by nlinarith, by nlinarith⟩

lemma curveR_in_bbox (cx cy w h : ℚ) (hw : 0 < w) (hh : 0 ≤ h) (i : ℕ) (hi : i ≤ 40) :
    inBBox cx cy w h (curvePtR cx cy w h i) := by
  rw [curvePtR_closed]
  set t := (i : ℚ) / 40 with htdef
  have ht0 : 0 ≤ t := by positivity
  have ht1 : t ≤ 1 := by
    rw [htdef, div_le_one (by norm_num)]
    exact_mod_cast hi
  have pA : 0 ≤ w * (1 - t) := mul_nonneg hw.le (by linarith)
  have pB : 0 ≤ w * t := mul_nonneg hw.le ht0
  have pC : 0 ≤ h * (t * (7 / 10 - (2 / 10) * t)) :=
    mul_nonneg hh (mul_nonneg ht0 (by linarith))
  have pD : 0 ≤ h * ((1 - t) * (1 / 2 - (2 / 10) * t)) :=
    mul_nonneg hh (mul_nonneg (by linarith) (by linarith))
  exact ⟨by nlinarith, by nlinarith, by nlinarith, by nlinarith⟩

lemma curveL_in_bbox (cx cy w h : ℚ) (hw : 0 < w) (hh : 0 ≤ h) (i : ℕ) (hi : i ≤ 40) :
    inBBox cx cy w h (curvePtL cx cy w h i) := by
  rw [curvePtL_closed]
  set t := (i : ℚ) / 40 with htdef
  have ht0 : 0 ≤ t := by positivity
  have ht1 : t ≤ 1 := by
    rw [htdef, div_le_one (by norm_num)]
    exact_mod_cast hi
  have pA : 0 ≤ w * (1 - t) := mul_nonneg hw.le (by linarith)
  have pB : 0 ≤ w * t := mul_nonneg hw.le ht0
  have pC : 0 ≤ h * ((1 - t) * (7 / 10 - (2 / 10) * (1 - t))) :=
    mul_nonneg hh (mul_nonneg (by linarith) (by linarith))
  have pD : 0 ≤ h * (t * (1 / 2 - (2 / 10) * (1 - t))) :=
    mul_nonneg hh (mul_nonneg ht0 (by linarith))
  exact ⟨by nlinarith, by nlinarith, by nlinarith, by nlinarith⟩

lemma pyint_nonneg_eq_floor (q : ℚ) (h : 0 ≤ q) : pyint q = ⌊q⌋ := by
  simp [pyint, h]

lemma topRow_alpha (i : ℕ) :
    (topRow i).alpha = pyint ((45 : ℚ) - (4500 / 40824) * (i : ℚ)) := by
  simp only [topRow]
  congr 1
  rw [show shield_h * (45 / 100) = 40824 / 100 by
    norm_num [shield_h, shield_w, SIZE, PAD]]
  ring

lemma botRow_alpha (i : ℕ) :
    (botRow i).alpha = pyint ((3500 / 31752) * (i : ℚ)) := by
  simp only [botRow]
  congr 1
  rw [show shield_h * (35 / 100) = 31752 / 100 by
    norm_num [shield_h, shield_w, SIZE, PAD]]
  ring

lemma exportGo_fail (ok : String → Bool) (dir : String) (sz sc : ℕ)
    (post : List (ℕ × ℕ)) :
    ∀ (pre : List (ℕ × ℕ)) (files : List WrittenFile) (entries : List ImageEntry),
      (∀ p ∈ pre, ok (dir ++ "/" ++ iconFilename p.1 p.2) = true) →
      ok (dir ++ "/" ++ iconFilename sz sc) = false →
      exportGo ok dir (pre ++ (sz, sc) :: post) files entries =
        ExportResult.error
          (files ++ pre.map (fun p => mkWritten dir p.1 p.2))
          (dir ++ "/" ++ iconFilename sz sc) := by
  intro pre
  induction pre with
  | nil =>
      intro files entries _ hfail
      simp [exportGo, hfail]
  | cons hd tl ih =>
      intro files entries hpre hfail
      obtain ⟨a, b⟩ := hd
      have ha : ok (dir ++ "/" ++ iconFilename a b) = true :=
        hpre (a, b) (List.mem_cons_self _ _)
      rw [List.cons_append]
      show exportGo ok dir ((a, b) :: (tl ++ (sz, sc) :: post)) files entries = _
      rw [show exportGo ok dir ((a, b) :: (tl ++ (sz, sc) :: post)) files entries =
          exportGo ok dir (tl ++ (sz, sc) :: post)
            (files ++ [mkWritten dir a b]) (entries ++ [mkEntry a b]) by
        simp [exportGo, ha]]
      rw [ih (files ++ [mkWritten dir a b]) (entries ++ [mkEntry a b])
        (fun p hp => hpre p (List.mem_cons_of_mem _ hp)) hfail]
      simp

end ShieldLemmas

/-- C10: the path always has `11 + 11 + 1 + 40 + 40 + 1 = 104` points
(11 per rounded top corner, one per straight side, 40 per Bézier curve),
independently of the inputs. -/
theorem shield_path_length (T : TrigOracle) (cx cy w h : ℚ) :
    (make_shield_path T cx cy w h).length = 104 :=
  shield_length_aux T cx cy w h

/-- C2: for every centre and positive bounding box the path is non-empty and
its first and last points agree up to `top_r * ε`, where `ε` bounds the
trigonometric error `|cos π + 1|`, `|sin π|` of the floating-point library
(exactly `0` for ideal trigonometry). -/
theorem shield_path_closed (T : TrigOracle) (cx cy w h ε : ℚ) (hw : 0 < w) (hh : 0 < h)
    (hcos : |T.cos T.pi + 1| ≤ ε) (hsin : |T.sin T.pi| ≤ ε) :
    make_shield_path T cx cy w h ≠ [] ∧
    ∃ p q : ℚ × ℚ,
      (make_shield_path T cx cy w h).head? = some p ∧
      (make_shield_path T cx cy w h).getLast? = some q ∧
      |p.1 - q.1| ≤ top_r w * ε ∧ |p.2 - q.2| ≤ top_r w * ε := by
  have hr : 0 ≤ top_r w := by unfold top_r; positivity
  refine ⟨shield_ne_nil_aux T cx cy w h,
    cornerPtTL T cx cy w h 0, (cx - w / 2, (cy - h / 2) + top_r w),
    shield_head_aux T cx cy w h, shield_last_aux T cx cy w h, ?_, ?_⟩
  · have h1 : (cornerPtTL T cx cy w h 0).1 - (cx - w / 2) =
        top_r w * (T.cos T.pi + 1) := by
      simp [cornerPtTL, shieldSteps]
      try ring
    rw [h1, abs_mul, abs_of_nonneg hr]
    exact mul_le_mul_of_nonneg_left hcos hr
  · have h2 : (cornerPtTL T cx cy w h 0).2 - ((cy - h / 2) + top_r w) =
        top_r w * T.sin T.pi := by
      simp [cornerPtTL, shieldSteps]
      try ring
    rw [h2, abs_mul, abs_of_nonneg hr]
    exact mul_le_mul_of_nonneg_left hsin hr

theorem shield_path_closed_witness :
    ((0:ℚ) < 1 ∧ |witTrig.cos witTrig.pi + 1| ≤ 0 ∧ |witTrig.sin witTrig.pi| ≤ 0) ∧
    (make_shield_path witTrig 0 0 1 1 ≠ [] ∧
     ∃ p q : ℚ × ℚ,
       (make_shield_path witTrig 0 0 1 1).head? = some p ∧
       (make_shield_path witTrig 0 0 1 1).getLast? = some q ∧
       |p.1 - q.1| ≤ top_r 1 * 0 ∧ |p.2 - q.2| ≤ top_r 1 * 0) :=
  ⟨⟨by norm_num, by norm_num [witTrig, wcos], by norm_num [witTrig, wsin]⟩,
   shield_path_closed witTrig 0 0 1 1 0 (by norm_num) (by norm_num)
     (by norm_num [witTrig, wcos]) (by norm_num [witTrig, wsin])⟩

/-- C4: the path decomposes into two 11-point rounded top corners (genuine
circular arcs of radius `top_r` around their corner centres, reaching the flat
top edge `y = top_y`), a straight right side spanning the upper half of the
height (from `top_y + top_r` down to `top_y + h/2`), and two quadratic Bézier
curves sampled at 40 steps each, the right one ending exactly at the bottom
centre `(cx, cy + h/2)` and the left one returning to the left side at
`straight_end`.  Trigonometric hypotheses: the oracle lies on the unit circle
and is exact at `3π/2` and `2π`. -/
theorem shield_path_shape (T : TrigOracle) (cx cy w h : ℚ)
    (hunit : ∀ a : ℚ, T.cos a ^ 2 + T.sin a ^ 2 = 1)
    (hc32 : T.cos (3 * T.pi / 2) = 0) (hs32 : T.sin (3 * T.pi / 2) = -1)
    (hc2 : T.cos (2 * T.pi) = 1) (hs2 : T.sin (2 * T.pi) = 0) :
    make_shield_path T cx cy w h =
      (List.range 11).map (cornerPtTL T cx cy w h)
        ++ (List.range 11).map (cornerPtTR T cx cy w h)
        ++ [(cx + w / 2, straight_end cy h)]
        ++ (List.range' 1 40).map (curvePtR cx cy w h)
        ++ (List.range' 1 40).map (curvePtL cx cy w h)
        ++ [(cx - w / 2, (cy - h / 2) + top_r w)] ∧
    (∀ i : ℕ,
      ((cornerPtTL T cx cy w h i).1 - (cx - w / 2 + top_r w)) ^ 2 +
        ((cornerPtTL T cx cy w h i).2 - ((cy - h / 2) + top_r w)) ^ 2 = top_r w ^ 2) ∧
    (∀ i : ℕ,
      ((cornerPtTR T cx cy w h i).1 - (cx + w / 2 - top_r w)) ^ 2 +
        ((cornerPtTR T cx cy w h i).2 - ((cy - h / 2) + top_r w)) ^ 2 = top_r w ^ 2) ∧
    cornerPtTL T cx cy w h 10 = (cx - w / 2 + top_r w, cy - h / 2) ∧
    cornerPtTR T cx cy w h 0 = (cx + w / 2 - top_r w, cy - h / 2) ∧
    cornerPtTR T cx cy w h 10 = (cx + w / 2, (cy - h / 2) + top_r w) ∧
    straight_end cy h = (cy - h / 2) + h / 2 ∧
    (∀ i : ℕ, curvePtR cx cy w h i =
      bezierPoint (cx + w / 2, straight_end cy h)
        (cx + w * (25 / 100), straight_end cy h + h * (35 / 100))
        (cx, cy + h / 2) ((i : ℚ) / 40)) ∧
    (∀ i : ℕ, curvePtL cx cy w h i =
      bezierPoint (cx, cy + h / 2)
        (cx - w * (25 / 100), straight_end cy h + h * (35 / 100))
        (cx - w / 2, straight_end cy h) ((i : ℚ) / 40)) ∧
    curvePtR cx cy w h 40 = (cx, cy + h / 2) ∧
    curvePtL cx cy w h 40 = (cx - w / 2, straight_end cy h) := by
  have h10 : ((10 : ℕ) : ℚ) / ((shieldSteps / 4 : ℕ) : ℚ) = 1 := by
    norm_num [shieldSteps]
  have h0 : ((0 : ℕ) : ℚ) / ((shieldSteps / 4 : ℕ) : ℚ) = 0 := by
    norm_num
  refine ⟨rfl, ?_, ?_, ?_, ?_, ?_, by unfold straight_end; ring, ?_, ?_, ?_, ?_⟩
  · intro i
    have hu := hunit (T.pi + (T.pi / 2) * ((i : ℚ) / ((shieldSteps / 4 : ℕ) : ℚ)))
    simp only [cornerPtTL]
    linear_combination (top_r w) ^ 2 * hu
  · intro i
    have hu := hunit (3 * T.pi / 2 + (T.pi / 2) * ((i : ℚ) / ((shieldSteps / 4 : ℕ) : ℚ)))
    simp only [cornerPtTR]
    linear_combination (top_r w) ^ 2 * hu
  · simp only [cornerPtTL, h10]
    rw [show T.pi + T.pi / 2 * 1 = 3 * T.pi / 2 by ring, hc32, hs32]
    rw [Prod.mk.injEq]
    constructor <;> ring
  · simp only [cornerPtTR, h0]
    rw [show 3 * T.pi / 2 + T.pi / 2 * 0 = 3 * T.pi / 2 by ring, hc32, hs32]
    rw [Prod.mk.injEq]
    constructor <;> ring
  · simp only [cornerPtTR, h10]
    rw [show 3 * T.pi / 2 + T.pi / 2 * 1 = 2 * T.pi by ring, hc2, hs2]
    rw [Prod.mk.injEq]
    constructor <;> ring
  · intro i
    unfold curvePtR
    norm_num [shieldSteps]
  · intro i
    unfold curvePtL
    norm_num [shieldSteps]
  · unfold curvePtR bezierPoint straight_end
    norm_num [shieldSteps]
  · unfold curvePtL bezierPoint straight_end
    norm_num [shieldSteps]

theorem shield_path_shape_witness :
    ((∀ a : ℚ, witTrig.cos a ^ 2 + witTrig.sin a ^ 2 = 1) ∧
     witTrig.cos (3 * witTrig.pi / 2) = 0 ∧ witTrig.sin (3 * witTrig.pi / 2) = -1 ∧
     witTrig.cos (2 * witTrig.pi) = 1 ∧ witTrig.sin (2 * witTrig.pi) = 0) ∧
    (make_shield_path witTrig 0 0 1 1 =
      (List.range 11).map (cornerPtTL witTrig 0 0 1 1)
        ++ (List.range 11).map (cornerPtTR witTrig 0 0 1 1)
        ++ [(0 + 1 / 2, straight_end 0 1)]
        ++ (List.range' 1 40).map (curvePtR 0 0 1 1)
        ++ (List.range' 1 40).map (curvePtL 0 0 1 1)
        ++ [(0 - 1 / 2, (0 - 1 / 2) + top_r 1)] ∧
    (∀ i : ℕ,
      ((cornerPtTL witTrig 0 0 1 1 i).1 - (0 - 1 / 2 + top_r 1)) ^ 2 +
        ((cornerPtTL witTrig 0 0 1 1 i).2 - ((0 - 1 / 2) + top_r 1)) ^ 2 = top_r 1 ^ 2) ∧
    (∀ i : ℕ,
      ((cornerPtTR witTrig 0 0 1 1 i).1 - (0 + 1 / 2 - top_r 1)) ^ 2 +
        ((cornerPtTR witTrig 0 0 1 1 i).2 - ((0 - 1 / 2) + top_r 1)) ^ 2 = top_r 1 ^ 2) ∧
    cornerPtTL witTrig 0 0 1 1 10 = (0 - 1 / 2 + top_r 1, 0 - 1 / 2) ∧
    cornerPtTR witTrig 0 0 1 1 0 = (0 + 1 / 2 - top_r 1, 0 - 1 / 2) ∧
    cornerPtTR witTrig 0 0 1 1 10 = (0 + 1 / 2, (0 - 1 / 2) + top_r 1) ∧
    straight_end 0 1 = (0 - 1 / 2) + 1 / 2 ∧
    (∀ i : ℕ, curvePtR 0 0 1 1 i =
      bezierPoint (0 + 1 / 2, straight_end 0 1)
        (0 + 1 * (25 / 100), straight_end 0 1 + 1 * (35 / 100))
        (0, 0 + 1 / 2) ((i : ℚ) / 40)) ∧
    (∀ i : ℕ, curvePtL 0 0 1 1 i =
      bezierPoint (0, 0 + 1 / 2)
        (0 - 1 * (25 / 100), straight_end 0 1 + 1 * (35 / 100))
        (0 - 1 / 2, straight_end 0 1) ((i : ℚ) / 40)) ∧
    curvePtR 0 0 1 1 40 = (0, 0 + 1 / 2) ∧
    curvePtL 0 0 1 1 40 = (0 - 1 / 2, straight_end 0 1)) :=
  ⟨⟨witTrig_unit, by norm_num [witTrig, wcos], by norm_num [witTrig, wsin],
    by norm_num [witTrig, wcos], by norm_num [witTrig, wsin]⟩,
   shield_path_shape witTrig 0 0 1 1 witTrig_unit
     (by norm_num [witTrig, wcos]) (by norm_num [witTrig, wsin])
     (by norm_num [witTrig, wcos]) (by norm_num [witTrig, wsin])⟩

/-- C9 as literally claimed is false: with `w = 100` and `h = 1` the final
path point `(cx - w/2, top_y + top_r)` has `y = top_y + 8`, far below the
bottom edge `cy + h/2` of the declared bounding box. -/
theorem shield_path_bbox_counterexample : ¬ ClaimC9 := by
  intro hcl
  have hmem : ((0:ℚ) - 100 / 2, ((0:ℚ) - 1 / 2) + top_r 100) ∈
      make_shield_path witTrig 0 0 100 1 := by
    unfold make_shield_path
    exact List.mem_append_right _ (List.mem_singleton_self _)
  have hbox := hcl witTrig witTrig_bounds 0 0 100 1 (by norm_num) (by norm_num)
    _ hmem
  unfold inBBox top_r at hbox
  norm_num at hbox

/-- C9 amended: all points of the path lie in the declared bounding box
provided the top-corner radius fits inside the height
(`top_r = 0.08 * w ≤ h`) — which holds for the actual call in the program, where
`h = 1.05 * w`. -/
theorem shield_path_in_bbox (T : TrigOracle) (hT : TrigBounds T)
    (cx cy w h : ℚ) (hw : 0 < w) (hrh : top_r w ≤ h) :
    ∀ p ∈ make_shield_path T cx cy w h, inBBox cx cy w h p := by
  have hr0 : 0 ≤ top_r w := by unfold top_r; nlinarith
  have hh0 : 0 ≤ h := le_trans hr0 hrh
  intro p hp
  unfold make_shield_path at hp
  simp only [List.mem_append, List.mem_map, List.mem_range, List.mem_singleton,
    List.mem_range'_1, shieldSteps] at hp
  rcases hp with ((((hp | hp) | hp) | hp) | hp) | hp
  · obtain ⟨i, hi, rfl⟩ := hp
    exact cornerTL_in_bbox T hT cx cy w h hw hrh i (by omega)
  · obtain ⟨i, hi, rfl⟩ := hp
    exact cornerTR_in_bbox T hT cx cy w h hw hrh i (by omega)
  · subst hp
    unfold inBBox straight_end
    refine ⟨by linarith, by linarith, by linarith, by linarith⟩
  · obtain ⟨i, hi, rfl⟩ := hp
    exact curveR_in_bbox cx cy w h hw hh0 i (by omega)
  · obtain ⟨i, hi, rfl⟩ := hp
    exact curveL_in_bbox cx cy w h hw hh0 i (by omega)
  · subst hp
    unfold inBBox
    refine ⟨by linarith, by linarith, by linarith, by linarith⟩

/-- C3: the mask is binary and marks a pixel opaque (255) exactly when the
pixel lies inside the shield polygon, and after `composite`/`putalpha` the
alpha of the gradient layer equals its original alpha inside the silhouette and is
zero everywhere outside it. -/
theorem mask_clips_gradient (T : TrigOracle) (cx cy w h : ℚ)
    (gA : (ℚ × ℚ) → ℕ) (p : ℚ × ℚ) :
    (maskPixel (make_shield_path T cx cy w h) p = 255 ↔
      insidePoly (make_shield_path T cx cy w h) p = true) ∧
    (maskPixel (make_shield_path T cx cy w h) p = 0 ↔
      insidePoly (make_shield_path T cx cy w h) p = false) ∧
    maskedGradientAlpha T cx cy w h gA p =
      (if insidePoly (make_shield_path T cx cy w h) p then gA p else 0) := by
  cases hin : insidePoly (make_shield_path T cx cy w h) p with
  | false =>
      refine ⟨by simp [maskPixel, hin], by simp [maskPixel, hin], ?_⟩
      simp [maskedGradientAlpha, compositeL, maskPixel, hin]
  | true =>
      refine ⟨by simp [maskPixel, hin], by simp [maskPixel, hin], ?_⟩
      simp only [maskedGradientAlpha, compositeL, maskPixel, hin, if_true]
      simp [Nat.mul_div_cancel]

theorem shield_path_in_bbox_witness :
    (TrigBounds witTrig ∧ (0:ℚ) < 1 ∧ top_r 1 ≤ 1 ∧
     ((0:ℚ) - 1 / 2, ((0:ℚ) - 1 / 2) + top_r 1) ∈ make_shield_path witTrig 0 0 1 1) ∧
    inBBox 0 0 1 1 ((0:ℚ) - 1 / 2, ((0:ℚ) - 1 / 2) + top_r 1) := by
  have hmem : ((0:ℚ) - 1 / 2, ((0:ℚ) - 1 / 2) + top_r 1) ∈
      make_shield_path witTrig 0 0 1 1 := by
    unfold make_shield_path
    exact List.mem_append_right _ (List.mem_singleton_self _)
  exact ⟨⟨witTrig_bounds, by norm_num, by norm_num [top_r], hmem⟩,
    shield_path_in_bbox witTrig witTrig_bounds 0 0 1 1 (by norm_num)
      (by norm_num [top_r]) _ hmem⟩

/-- C5 as literally claimed is false: the stand width is
`max(4, int(12*scale))`, which takes the value 4 at both `scale = 1/6` and
`scale = 1/3`, so no proportionality constant exists for it. -/
theorem microphone_proportionality_counterexample : ¬ ClaimC5 := by
  intro hcl
  obtain ⟨-, k1, k2, k3, k4, k5, k6, k7, k8, hk⟩ := hcl 0 0
  have h6 := (hk (1 / 6) (by norm_num)).2.2.2.2.2.1
  have h3 := (hk (1 / 3) (by norm_num)).2.2.2.2.2.1
  have e6 : (draw_microphone 0 0 (1 / 6)).stand_w = 4 := by
    norm_num [draw_microphone, pyint]
  have e3 : (draw_microphone 0 0 (1 / 3)).stand_w = 4 := by
    norm_num [draw_microphone, pyint]
  rw [e6] at h6
  rw [e3] at h3
  push_cast at h6 h3
  linarith

/-- C5 amended: the capsule is `1.7×` as tall as wide, the cradle arc is
`1.7×` the capsule width, the grille is exactly five horizontal lines evenly
spaced (`17*scale` apart) between the grille top and bottom and inset
equally (`22*scale` on each side) from the capsule edges, and the
continuous glyph dimensions (capsule, arc, stand height, base width) are
proportional to the scale factor; the pixel-clamped stroke dimensions
(of the form max of a constant and a truncated multiple of scale) are
exempted, as they are not proportional. -/
theorem microphone_glyph_geometry (cx cy s : ℚ) :
    (draw_microphone cx cy s).cap_h = (17 / 10) * (draw_microphone cx cy s).cap_w ∧
    (draw_microphone cx cy s).arc_w = (17 / 10) * (draw_microphone cx cy s).cap_w ∧
    (draw_microphone cx cy s).grille_lines.length = 5 ∧
    (∀ i : ℕ, i < 5 → (draw_microphone cx cy s).grille_lines[i]? =
      some ⟨cx - 28 * s, (cy - (561 / 10) * s) + 17 * s * (i : ℚ),
            cx + 28 * s, (cy - (561 / 10) * s) + 17 * s * (i : ℚ)⟩) ∧
    (draw_microphone cx cy s).cap_w = 100 * s ∧
    (draw_microphone cx cy s).cap_h = 170 * s ∧
    (draw_microphone cx cy s).arc_w = 170 * s ∧
    (draw_microphone cx cy s).arc_h_val = (153 / 2) * s ∧
    (draw_microphone cx cy s).stand_h = 55 * s ∧
    (draw_microphone cx cy s).base_w = 90 * s := by
  have h4 : ((num_lines : ℕ) : ℚ) - 1 = 4 := by norm_num [num_lines]
  refine ⟨by simp [draw_microphone]; ring, by simp [draw_microphone]; ring,
    by simp [draw_microphone, num_lines], ?_, by simp [draw_microphone],
    by simp [draw_microphone], by simp [draw_microphone]; ring,
    by simp [draw_microphone]; ring, by simp [draw_microphone],
    by simp [draw_microphone]⟩
  intro i hi
  have hi5 : i < num_lines := by simpa [num_lines] using hi
  simp only [draw_microphone, List.getElem?_map, List.getElem?_range hi5,
    Option.map_some']
  rw [Option.some.injEq]
  unfold grilleLine
  rw [h4, Seg.mk.injEq]
  refine ⟨by ring, by ring, by ring, by ring⟩

theorem microphone_glyph_geometry_witness :
    (0 : ℕ) < 5 ∧ (draw_microphone 1 2 3).grille_lines[0]? =
      some ⟨1 - 28 * 3, (2 - (561 / 10) * 3) + 17 * 3 * ((0 : ℕ) : ℚ),
            1 + 28 * 3, (2 - (561 / 10) * 3) + 17 * 3 * ((0 : ℕ) : ℚ)⟩ :=
  ⟨by norm_num, (microphone_glyph_geometry 1 2 3).2.2.2.1 0 (by norm_num)⟩

/-- C6: the gradient layer.  The top highlight has 408 white rows starting
at the top edge of the shield, alpha the truncation of an affine (linear) function
of the row index, maximal (45) at the top edge, weakly decreasing, and 0 on
the last row; the bottom darkening has 317 black rows ending one row above
the bottom edge of the shield, alpha the truncation of a linear function of the
row index, 0 on its first row and weakly increasing toward the bottom; every
row spans the full canvas width (x from 0 to SIZE). -/
theorem gradient_ramp :
    topRowCount = 408 ∧
    botRowCount = 317 ∧
    topHighlight.length = 408 ∧
    bottomDark.length = 317 ∧
    (∀ i : ℕ, (topRow i).x0 = 0 ∧ (topRow i).x1 = 1024 ∧
      (topRow i).y = shield_top + (i : ℚ) ∧
      (topRow i).red = 255 ∧ (topRow i).green = 255 ∧ (topRow i).blue = 255) ∧
    (∀ i : ℕ, (topRow i).alpha = pyint ((45 : ℚ) - (4500 / 40824) * (i : ℚ))) ∧
    (topRow 0).alpha = 45 ∧
    (∀ i j : ℕ, i ≤ j → j < 408 → (topRow j).alpha ≤ (topRow i).alpha) ∧
    (topRow 407).alpha = 0 ∧
    (∀ i : ℕ, (botRow i).x0 = 0 ∧ (botRow i).x1 = 1024 ∧
      (botRow i).y = shield_bot - 317 + (i : ℚ) ∧
      (botRow i).red = 0 ∧ (botRow i).green = 0 ∧ (botRow i).blue = 0) ∧
    (∀ i : ℕ, (botRow i).alpha = pyint ((3500 / 31752) * (i : ℚ))) ∧
    (botRow 0).alpha = 0 ∧
    (∀ i j : ℕ, i ≤ j → (botRow i).alpha ≤ (botRow j).alpha) ∧
    (botRow 316).alpha = 34 := by
  have hcnt : topRowCount = 408 := by
    norm_num [topRowCount, pyint, shield_h, shield_w, SIZE, PAD]
    rfl
  have hcntb : botRowCount = 317 := by
    norm_num [botRowCount, pyint, shield_h, shield_w, SIZE, PAD]
    rfl
  refine ⟨hcnt, hcntb, ?_, ?_, ?_, topRow_alpha, ?_, ?_, ?_, ?_, botRow_alpha,
    ?_, ?_, ?_⟩
  · simp [topHighlight, hcnt]
  · simp [bottomDark, hcntb]
  · intro i
    exact ⟨rfl, by norm_num [topRow, SIZE], rfl, rfl, rfl, rfl⟩
  · rw [topRow_alpha]
    norm_num [pyint]
  · intro i j hij hj
    rw [topRow_alpha i, topRow_alpha j]
    have hcast : (i : ℚ) ≤ (j : ℚ) := by exact_mod_cast hij
    have hj407 : (j : ℚ) ≤ 407 := by exact_mod_cast Nat.lt_succ_iff.mp hj
    have hnnj : (0 : ℚ) ≤ 45 - 4500 / 40824 * (j : ℚ) := by nlinarith
    have hnni : (0 : ℚ) ≤ 45 - 4500 / 40824 * (i : ℚ) := by nlinarith
    rw [pyint_nonneg_eq_floor _ hnnj, pyint_nonneg_eq_floor _ hnni]
    apply Int.floor_le_floor
    nlinarith
  · rw [topRow_alpha]
    norm_num [pyint]
  · intro i
    refine ⟨rfl, by norm_num [botRow, SIZE], ?_, rfl, rfl, rfl⟩
    show shield_bot - ((pyint (shield_h * (35 / 100)) : ℤ) : ℚ) + (i : ℚ) =
      shield_bot - 317 + (i : ℚ)
    norm_num [pyint, shield_h, shield_w, SIZE, PAD]
  · rw [botRow_alpha]
    norm_num [pyint]
  · intro i j hij
    rw [botRow_alpha i, botRow_alpha j]
    have hcast : (i : ℚ) ≤ (j : ℚ) := by exact_mod_cast hij
    have hnni : (0 : ℚ) ≤ 3500 / 31752 * (i : ℚ) := by positivity
    have hnnj : (0 : ℚ) ≤ 3500 / 31752 * (j : ℚ) := by positivity
    rw [pyint_nonneg_eq_floor _ hnni, pyint_nonneg_eq_floor _ hnnj]
    apply Int.floor_le_floor
    nlinarith
  · rw [botRow_alpha]
    norm_num [pyint]

theorem gradient_ramp_witness :
    ((0 : ℕ) ≤ 1 ∧ (1 : ℕ) < 408) ∧ (topRow 1).alpha ≤ (topRow 0).alpha :=
  ⟨⟨by norm_num, by norm_num⟩,
   gradient_ramp.2.2.2.2.2.2.2.1 0 1 (by norm_num) (by norm_num)⟩

/-- C1: with every write succeeding, the exporter writes exactly the 10
image files of the size list — each resized to `size*scale` square pixels,
each named `icon_{size}x{size}` with an `@2x` suffix exactly on the scale-2
entries — and the manifest lists exactly 10 entries, one per pair, every
filename appearing exactly once, each with idiom `"mac"`, scale `"<n>x"`,
size `"<w>x<h>"`, and info `author = "xcode"`, `version = 1`. -/
theorem export_outputs (dir : String) :
    ∃ files contents,
      generate_sizes (fun _ => true) dir = ExportResult.ok files contents ∧
      files.length = 10 ∧
      files = sizesList.map (fun sc => mkWritten dir sc.1 sc.2) ∧
      (∀ f ∈ files, f.pixel_w = f.pixel_h) ∧
      files.map WrittenFile.pixel_w =
        [16, 32, 32, 64, 128, 256, 256, 512, 512, 1024] ∧
      contents.images.length = 10 ∧
      contents.images = sizesList.map (fun sc => mkEntry sc.1 sc.2) ∧
      contents.images.map ImageEntry.filename =
        ["icon_16x16.png", "icon_16x16@2x.png", "icon_32x32.png",
         "icon_32x32@2x.png", "icon_128x128.png", "icon_128x128@2x.png",
         "icon_256x256.png", "icon_256x256@2x.png", "icon_512x512.png",
         "icon_512x512@2x.png"] ∧
      (contents.images.map ImageEntry.filename).Nodup ∧
      files.map WrittenFile.path =
        contents.images.map (fun e => dir ++ "/" ++ e.filename) ∧
      (∀ e ∈ contents.images, e.idiom = "mac") ∧
      contents.images.map ImageEntry.scale =
        ["1x", "2x", "1x", "2x", "1x", "2x", "1x", "2x", "1x", "2x"] ∧
      contents.images.map ImageEntry.size =
        ["16x16", "16x16", "32x32", "32x32", "128x128", "128x128",
         "256x256", "256x256", "512x512", "512x512"] ∧
      contents.author = "xcode" ∧ contents.version = 1 := by
  have hrun : generate_sizes (fun _ => true) dir =
      ExportResult.ok (sizesList.map (fun sc => mkWritten dir sc.1 sc.2))
        { images := sizesList.map (fun sc => mkEntry sc.1 sc.2),
          author := "xcode", version := 1 } := by
    simp [generate_sizes, sizesList, exportGo]
  refine ⟨sizesList.map (fun sc => mkWritten dir sc.1 sc.2),
    { images := sizesList.map (fun sc => mkEntry sc.1 sc.2),
      author := "xcode", version := 1 }, ?_, ?_, ?_, ?_, ?_, ?_, ?_,
    ?_, ?_, ?_, ?_, ?_, ?_, ?_, ?_⟩
  case _ => exact hrun
  case _ => rfl
  case _ => rfl
  case _ =>
    intro f hf
    simp only [sizesList, List.map_cons, List.map_nil, List.mem_cons,
      List.not_mem_nil, or_false] at hf
    rcases hf with rfl | rfl | rfl | rfl | rfl | rfl | rfl | rfl | rfl | rfl
    all_goals rfl
  case _ => rfl
  case _ => rfl
  case _ => rfl
  case _ => rfl
  case _ => decide
  case _ => rfl
  case _ =>
    intro e he
    simp only [sizesList, List.map_cons, List.map_nil, List.mem_cons,
      List.not_mem_nil, or_false] at he
    rcases he with rfl | rfl | rfl | rfl | rfl | rfl | rfl | rfl | rfl | rfl
    all_goals rfl
  case _ => rfl
  case _ => rfl
  case _ => rfl
  case _ => rfl

/-- C7: the generator is deterministic — a run is a pure function of the
rendering backend (master image, resize) and the output directory, so two
runs with equal inputs produce equal outputs: the same master pixels, the
same ten resized images, and byte-identical serialized manifest content. -/
theorem run_deterministic {Img : Type} (m₁ m₂ : Img)
    (resize₁ resize₂ : Img → ℕ → Img) (dir₁ dir₂ : String)
    (hm : m₁ = m₂) (hr : resize₁ = resize₂) (hd : dir₁ = dir₂) :
    runOnce m₁ resize₁ dir₁ = runOnce m₂ resize₂ dir₂ ∧
    (runOnce m₁ resize₁ dir₁).2.2 = (runOnce m₂ resize₂ dir₂).2.2 := by
  subst hm
  subst hr
  subst hd
  exact ⟨rfl, rfl⟩

theorem run_deterministic_witness :
    ((0 : ℕ) = 0 ∧ (fun (i n : ℕ) => i + n) = (fun (i n : ℕ) => i + n) ∧
      "out" = "out") ∧
    (runOnce 0 (fun (i n : ℕ) => i + n) "out" =
        runOnce 0 (fun (i n : ℕ) => i + n) "out" ∧
     (runOnce 0 (fun (i n : ℕ) => i + n) "out").2.2 =
        (runOnce 0 (fun (i n : ℕ) => i + n) "out").2.2) :=
  ⟨⟨rfl, rfl, rfl⟩,
   run_deterministic 0 0 (fun (i n : ℕ) => i + n) (fun (i n : ℕ) => i + n)
     "out" "out" rfl rfl rfl⟩

/-- C8: if the write of some image file in the fixed size list fails (all
earlier writes succeeding), the run aborts with the error propagating to the
caller: exactly the files before the failure were written, no later image
file is written, and the manifest is never produced — no failure is caught
or swallowed. -/
theorem export_error_aborts (ok : String → Bool) (dir : String)
    (pre : List (ℕ × ℕ)) (sz sc : ℕ) (post : List (ℕ × ℕ))
    (hsplit : sizesList = pre ++ (sz, sc) :: post)
    (hpre : ∀ p ∈ pre, ok (dir ++ "/" ++ iconFilename p.1 p.2) = true)
    (hfail : ok (dir ++ "/" ++ iconFilename sz sc) = false) :
    generate_sizes ok dir =
      ExportResult.error (pre.map (fun p => mkWritten dir p.1 p.2))
        (dir ++ "/" ++ iconFilename sz sc) ∧
    (∀ files contents, generate_sizes ok dir ≠ ExportResult.ok files contents) := by
  have h1 : generate_sizes ok dir =
      ExportResult.error (pre.map (fun p => mkWritten dir p.1 p.2))
        (dir ++ "/" ++ iconFilename sz sc) := by
    unfold generate_sizes
    rw [hsplit, exportGo_fail ok dir sz sc post pre [] [] hpre hfail]
    simp
  refine ⟨h1, ?_⟩
  intro files contents hcon
  rw [h1] at hcon
  exact ExportResult.noConfusion hcon

theorem export_error_aborts_witness :
    (sizesList = [(16, 1), (16, 2)] ++ (32, 1) ::
        [(32, 2), (128, 1), (128, 2), (256, 1), (256, 2), (512, 1), (512, 2)] ∧
     (∀ p ∈ ([(16, 1), (16, 2)] : List (ℕ × ℕ)),
        failOracle ("d" ++ "/" ++ iconFilename p.1 p.2) = true) ∧
     failOracle ("d" ++ "/" ++ iconFilename 32 1) = false) ∧
    (generate_sizes failOracle "d" =
      ExportResult.error
        (([(16, 1), (16, 2)] : List (ℕ × ℕ)).map (fun p => mkWritten "d" p.1 p.2))
        ("d" ++ "/" ++ iconFilename 32 1) ∧
     (∀ files contents,
        generate_sizes failOracle "d" ≠ ExportResult.ok files contents)) :=
  ⟨⟨rfl, by decide, by decide⟩,
   export_error_aborts failOracle "d" [(16, 1), (16, 2)] 32 1
     [(32, 2), (128, 1), (128, 2), (256, 1), (256, 2), (512, 1), (512, 2)]
     rfl (by decide) (by decide)⟩

end NoteTaker
